import Mathlib

/-!
Verification development for the trading-analytics repository (tick ingestion,
OHLC aggregation, rolling statistics, pair analytics, backtest, alerts, and the
React frontend glue).  Frontend behaviour (spread request construction, hedge
ratio retention, correlation-heatmap rendering, WebSocket reconnection) is
embedded directly from the TypeScript sources.  The backend analytics engine
(`main.py`) is not part of the repository snapshot, so those components are
modelled from the specification text, as marked in each doc comment.
-/

/-! ## Frontend: spread request parameters and hedge-ratio retention -/

/-- Query parameters of the `/analytics/spread` request as built by
`apiClient.getSpread` in `utils/api.ts`.  `hedge_ratio` is `none` when the
query parameter is absent. -/
structure SpreadParams where
  symbol1 : String
  symbol2 : String
  timeframe : String
  hedge_ratio : Option ℚ
deriving DecidableEq

/-- JavaScript truthiness of an optional number (`undefined` and `0` are
falsy; numbers are embedded as rationals, so NaN does not arise). -/
def jsTruthyNum (q : Option ℚ) : Bool :=
  match q with
  | none => false
  | some v => v != 0

/-- Embedded from `apiClient.getSpread` (`utils/api.ts`): the params object
starts as the symbols and timeframe, and `hedge_ratio` is added only when the
supplied value is truthy (`if (hedgeRatio) params.hedge_ratio = hedgeRatio`). -/
def getSpreadParams (s1 s2 tf : String) (hedgeRatio : Option ℚ) : SpreadParams :=
  { symbol1 := s1, symbol2 := s2, timeframe := tf,
    hedge_ratio := if jsTruthyNum hedgeRatio then hedgeRatio else none }

/-- Embedded from `Home.fetchHedgeRatio` (dashboard page): the fetched
`result.hedge_ratio` is stored via `setHedgeRatio` only when it is truthy
(`if (result.hedge_ratio) setHedgeRatio(result.hedge_ratio)`); otherwise the
previously held state is kept. -/
def fetchHedgeRatioUpdate (prev : Option ℚ) (fetched : ℚ) : Option ℚ :=
  if fetched != 0 then some fetched else prev

/-! ## Frontend: correlation-heatmap cell rendering -/

/-- Embedded from `CorrelationHeatmap`: each rendered cell is
`data[symbol1]?.[symbol2] ?? 0`.  The matrix is a partial map from row symbol
to a partial map from column symbol to an optional value (`none` for a JSON
null cell); a missing row, a missing cell and a null cell all render as 0. -/
def heatmapCell (data : String → Option (String → Option ℚ)) (s1 s2 : String) : ℚ :=
  match data s1 with
  | none => 0
  | some row => (row s2).getD 0

/-! ## Frontend: WebSocket reconnection policy (`useWebSocket.ts`) -/

/-- Maximum reconnection attempts from `useWebSocket.ts`. -/
def maxReconnectAttempts : Nat := 10

/-- Base reconnection delay (milliseconds) from `useWebSocket.ts`. -/
def baseReconnectDelay : Nat := 1000

/-- Maximum reconnection delay (milliseconds) from `useWebSocket.ts`. -/
def maxReconnectDelay : Nat := 30000

/-- Embedded from `useWebSocket.getReconnectDelay`: exponential backoff
`min(baseReconnectDelay * 2 ^ attempts, maxReconnectDelay)`. -/
def getReconnectDelay (attempts : Nat) : Nat :=
  min (baseReconnectDelay * 2 ^ attempts) maxReconnectDelay

/-- Embedded from the `ws.onclose` handler of `useWebSocket` (for a mounted
component with reconnection enabled): given the current attempt counter and
the close code, return the updated counter and the scheduled reconnect delay
(`none` when no reconnection is scheduled).  The source increments the counter
and then calls `getReconnectDelay(reconnectAttemptsRef.current - 1)`. -/
def wsOnClose (attempts : Nat) (code : Nat) : Nat × Option Nat :=
  if code ≠ 1000 ∧ attempts < maxReconnectAttempts then
    (attempts + 1, some (getReconnectDelay (attempts + 1 - 1)))
  else
    (attempts, none)

/-- Embedded from the `ws.onopen` handler of `useWebSocket`: the attempt
counter is reset to zero on every successful connection. -/
def wsOnOpen (_attempts : Nat) : Nat := 0

/-! ## Engine data model (modelled from the spec) -/

/-- Modelled from the spec: the Tick data model of section 3 — instrument,
timestamp (epoch milliseconds), price and quantity.  The backend engine source
is missing from the snapshot, so the model follows the specification text;
prices and quantities are embedded as rationals. -/
structure Tick where
  instrument : String
  timestamp : Nat
  price : ℚ
  quantity : ℚ
deriving DecidableEq

/-- Modelled from the spec: the Bar data model of section 3.  The field
`open_` is the bar's opening price (`open` is a Lean keyword). -/
structure Bar where
  instrument : String
  resolution : Nat
  bucket_start : Nat
  open_ : ℚ
  high : ℚ
  low : ℚ
  close : ℚ
  volume : ℚ
deriving DecidableEq

/-! ## Aggregator (modelled from the spec, section 4.2) -/

/-- Modelled from the spec: bucket boundaries are computed by floor-dividing
the timestamp by the resolution's duration in the same time base as ticks. -/
def bucketStart (res t : Nat) : Nat := t / res * res

/-- Modelled from the spec: the bar created on the first tick of a new bucket
(open set only on creation; high, low and close start at the tick's price;
volume starts at the tick's quantity). -/
def mkBar (res : Nat) (tk : Tick) : Bar :=
  { instrument := tk.instrument, resolution := res,
    bucket_start := bucketStart res tk.timestamp,
    open_ := tk.price, high := tk.price, low := tk.price, close := tk.price,
    volume := tk.quantity }

/-- Modelled from the spec: updating the open bar with a tick of the same
bucket — close set to this tick's price, high/low expanded, volume
accumulated. -/
def updateBar (b : Bar) (tk : Tick) : Bar :=
  { b with
    close := tk.price,
    high := max b.high tk.price,
    low := min b.low tk.price,
    volume := b.volume + tk.quantity }

/-- Modelled from the spec: a gap marker bar for an empty bucket between two
ticked buckets (sections 3 and 9 require bars with no gaps larger than one
bucket, so idle buckets are emitted as markers carrying the previous close
with zero volume). -/
def gapBar (b : Bar) (s : Nat) : Bar :=
  { b with
    bucket_start := s,
    open_ := b.close,
    high := b.close,
    low := b.close,
    close := b.close,
    volume := 0 }

/-- Modelled from the spec: the run of `m` gap marker bars following bar `b`,
one per empty bucket, each one resolution after the previous. -/
def gapRun (res : Nat) : Bar → Nat → List Bar
  | _, 0 => []
  | b, m + 1 =>
    gapBar b (b.bucket_start + res) :: gapRun res (gapBar b (b.bucket_start + res)) m

/-- Aggregator state for one (instrument, resolution) key: the closed bars
emitted so far and the single open bar, if any. -/
structure AggSt where
  emitted : List Bar
  current : Option Bar
deriving DecidableEq

/-- Modelled from the spec: one aggregator transition (section 4.2).  First
tick opens a bar; a tick of the open bar's bucket updates it; a tick of a
later bucket closes the current bar, emits gap markers for the empty buckets
strictly in between, and opens a new bar.  A tick older than the open bucket
cannot occur on the ordered stream the TickStore delivers and leaves the
state unchanged. -/
def stepAgg (res : Nat) (st : AggSt) (tk : Tick) : AggSt :=
  match st.current with
  | none => { emitted := st.emitted, current := some (mkBar res tk) }
  | some b =>
    let s := bucketStart res tk.timestamp
    if s = b.bucket_start then
      { st with current := some (updateBar b tk) }
    else if b.bucket_start < s then
      { emitted := st.emitted ++ b :: gapRun res b (s / res - b.bucket_start / res - 1),
        current := some (mkBar res tk) }
    else st

/-- Modelled from the spec: aggregation of a tick stream for one
(instrument, resolution) key, starting from the empty state. -/
def runAgg (res : Nat) (ticks : List Tick) : AggSt :=
  ticks.foldl (stepAgg res) { emitted := [], current := none }

/-- All bars the aggregator has produced for a tick stream: the closed bars
followed by the still-open bar, if any. -/
def aggBars (res : Nat) (ticks : List Tick) : List Bar :=
  (runAgg res ticks).emitted ++ (runAgg res ticks).current.toList

/-- OHLC sanity of one bar: high at least max(open, close), low at most
min(open, close), volume non-negative. -/
def barWellFormed (b : Bar) : Prop :=
  max b.open_ b.close ≤ b.high ∧ b.low ≤ min b.open_ b.close ∧ 0 ≤ b.volume

/-- Consecutive bars are contiguous and non-overlapping: each bar's bucket
starts exactly one resolution after the previous bar's bucket. -/
def contiguous (res : Nat) (l : List Bar) : Prop :=
  List.Chain' (fun a b => a.bucket_start + res = b.bucket_start) l

/-- Invariant of the aggregator state: every produced bar (closed or open) is
well formed, the produced bars form a contiguous chain, the open bar's bucket
start is a multiple of the resolution, and before the first tick nothing has
been emitted. -/
def aggInv (res : Nat) (st : AggSt) : Prop :=
  (∀ b ∈ st.emitted ++ st.current.toList, barWellFormed b) ∧
  contiguous res (st.emitted ++ st.current.toList) ∧
  (∀ b ∈ st.current.toList, res ∣ b.bucket_start) ∧
  (st.current = none → st.emitted = [])

/-! ## TickStore (modelled from the spec, section 4.1) -/

/-- Modelled from the spec: insertion of a tick into a timestamp-ordered
per-instrument list, keeping the order (late ticks are inserted in sequence,
not rejected). -/
def insertByTime : List Tick → Tick → List Tick
  | [], t => [t]
  | x :: xs, t =>
    if t.timestamp < x.timestamp then t :: x :: xs else x :: insertByTime xs t

/-- Modelled from the spec: `TickStore.append` — a duplicate insert (same
instrument, timestamp, price and quantity, i.e. an identical tick) is an
idempotent no-op; otherwise the tick is inserted in timestamp order. -/
def appendTick (s : List Tick) (t : Tick) : List Tick :=
  if t ∈ s then s else insertByTime s t

/-! ## Rolling statistics (modelled from the spec, section 4.3) -/

/-- Arithmetic mean of a list of rationals (0 for the empty list, by rational
division by zero). -/
def mean (l : List ℚ) : ℚ := l.sum / l.length

/-- Population variance of a list of rationals. -/
def variance (l : List ℚ) : ℚ :=
  (l.map fun x => (x - mean l) ^ 2).sum / l.length

/-- Insertion of a rational into a sorted list, for the median. -/
def insertSorted (x : ℚ) : List ℚ → List ℚ
  | [] => [x]
  | y :: ys => if x ≤ y then x :: y :: ys else y :: insertSorted x ys

/-- Insertion sort of a list of rationals. -/
def sortQ (l : List ℚ) : List ℚ := l.foldr insertSorted []

/-- Median of a list of rationals: middle element of the sorted list, or the
mean of the two middle elements for even length. -/
def median (l : List ℚ) : ℚ :=
  let s := sortQ l
  let n := l.length
  if n = 0 then 0
  else if n % 2 = 1 then s.getD (n / 2) 0
  else (s.getD (n / 2 - 1) 0 + s.getD (n / 2) 0) / 2

/-- Minimum of a list of rationals (head default). -/
def listMin (l : List ℚ) : ℚ := l.foldl min (l.headD 0)

/-- Maximum of a list of rationals (head default). -/
def listMax (l : List ℚ) : ℚ := l.foldl max (l.headD 0)

/-- The trailing window of the last `w` points of a series. -/
def windowSlice (series : List ℚ) (w : Nat) : List ℚ :=
  series.drop (series.length - w)

/-- The first value inside the trailing window of size `w`. -/
def firstInWindow (series : List ℚ) (w : Nat) : ℚ :=
  (windowSlice series w).headD 0

/-- Modelled from the spec: the RollingStats result record (section 4.3).
`change_pct` is optional: `none` models the null/omitted field of the
DivisionUndefined case. -/
structure RollingStatsResult where
  mean : ℚ
  std : ℚ
  min : ℚ
  max : ℚ
  median : ℚ
  current : ℚ
  change : ℚ
  change_pct : Option ℚ
deriving DecidableEq

/-- Modelled from the spec: `RollingStats.compute(series, window)`.  The
standard deviation is `rt` applied to the population variance, where `rt` is
an abstract square-root parameter (the exact real square root is irrational
in general and no claim here depends on its value).  Windows larger than the
series report insufficient data (`none`); `change_pct` is `none` exactly when
the first value in the window is zero, instead of raising an error. -/
def computeStats (rt : ℚ → ℚ) (series : List ℚ) (w : Nat) : Option RollingStatsResult :=
  if w = 0 ∨ series.length < w then none
  else
    let win := windowSlice series w
    let cur := (win.getLast?).getD 0
    let first := win.headD 0
    some
      { mean := mean win, std := rt (variance win),
        min := listMin win, max := listMax win, median := median win,
        current := cur, change := cur - first,
        change_pct := if first = 0 then none else some ((cur - first) / first) }

/-! ## Z-score of a spread series (modelled from the spec, section 4.4) -/

/-- The trailing window of `w` points of `xs` ending at index `t`. -/
def trailing (xs : List ℚ) (w t : Nat) : List ℚ :=
  (xs.take (t + 1)).drop (t + 1 - w)

/-- Rolling mean at index `t` over the trailing `w` points. -/
def rollingMean (xs : List ℚ) (w t : Nat) : ℚ := mean (trailing xs w t)

/-- Rolling population variance at index `t` over the trailing `w` points
(the rolling standard deviation is zero exactly when this is zero). -/
def rollingVar (xs : List ℚ) (w t : Nat) : ℚ := variance (trailing xs w t)

/-- Modelled from the spec: the rolling z-score of a spread series at index
`t` with window `w` — `none` before `w` points are available (insufficient
data); exactly 0 when the rolling standard deviation is zero (flat spread),
not a failure; otherwise the centred value divided by the standard deviation,
with the square root abstracted as `rt` as in `computeStats`. -/
def zscoreAt (rt : ℚ → ℚ) (xs : List ℚ) (w t : Nat) : Option ℚ :=
  if t + 1 < w ∨ xs.length ≤ t then none
  else if rollingVar xs w t = 0 then some 0
  else some ((xs.getD t 0 - rollingMean xs w t) / rt (rollingVar xs w t))

/-- The full z-score series of a spread series. -/
def zscoreSeries (rt : ℚ → ℚ) (xs : List ℚ) (w : Nat) : List (Option ℚ) :=
  (List.range xs.length).map fun t => zscoreAt rt xs w t

/-! ## Backtest engine (modelled from the spec, section 4.7) -/

/-- Direction of a backtest position. -/
inductive Side where
  | long : Side
  | short : Side
deriving DecidableEq

/-- Modelled from the spec: one trade record of a Flat to Position to Flat
cycle. -/
structure Trade where
  side : Side
  entry_index : Nat
  exit_index : Nat
  entry_z : ℚ
  exit_z : ℚ
  pnl : ℚ
deriving DecidableEq

/-- Backtest state: the open position (side, entry index, entry z), if any,
and the trades closed so far. -/
structure BtState where
  position : Option (Side × Nat × ℚ)
  trades : List Trade
deriving DecidableEq

/-- Modelled from the spec: one backtest transition.  While Flat: enter long
when z is at most minus entry_z, enter short when z is at least entry_z.
While in a position: exit to Flat when the absolute z is at most exit_z,
emitting one trade whose pnl is the direction-aware spread move between the
entry and exit indices. -/
def btStep (spread : List ℚ) (entryZ exitZ : ℚ) (st : BtState) (i : Nat) (z : ℚ) : BtState :=
  match st.position with
  | none =>
    if z ≤ -entryZ then { st with position := some (Side.long, i, z) }
    else if entryZ ≤ z then { st with position := some (Side.short, i, z) }
    else st
  | some (side, ei, ez) =>
    if |z| ≤ exitZ then
      { position := none,
        trades := st.trades ++
          [{ side := side, entry_index := ei, exit_index := i, entry_z := ez, exit_z := z,
             pnl := match side with
               | Side.long => spread.getD i 0 - spread.getD ei 0
               | Side.short => spread.getD ei 0 - spread.getD i 0 }] }
    else st

/-- Single pass of the backtest over the tail of the z-score series starting
at index `i`. -/
def btRun (spread : List ℚ) (entryZ exitZ : ℚ) : Nat → BtState → List ℚ → BtState
  | _, st, [] => st
  | i, st, z :: rest =>
    btRun spread entryZ exitZ (i + 1) (btStep spread entryZ exitZ st i z) rest

/-- Modelled from the spec: the deterministic single pass of the backtest
over a z-score series, starting Flat with no trades. -/
def runBacktest (zs spread : List ℚ) (entryZ exitZ : ℚ) : BtState :=
  btRun spread entryZ exitZ 0 { position := none, trades := [] } zs

/-- Total profit and loss of a backtest run (sum of trade pnl). -/
def totalPnl (st : BtState) : ℚ := (st.trades.map fun tr => tr.pnl).sum

/-- Number of winning trades (pnl strictly positive). -/
def winningTrades (st : BtState) : Nat :=
  (st.trades.filter fun tr => 0 < tr.pnl).length

/-- Win rate: winning trades over total trades, 0 when there are no trades
(not a division failure). -/
def winRate (st : BtState) : ℚ :=
  if st.trades.length = 0 then 0 else (winningTrades st : ℚ) / st.trades.length

/-! ## Alert engine (modelled from the spec, section 4.8) -/

/-- Modelled from the spec: the AlertRule data model of section 3. -/
structure AlertRule where
  id : String
  symbol : String
  condition : String
  threshold : ℚ
  enabled : Bool
  triggered : Bool
  last_triggered : Option Nat
deriving DecidableEq

/-- Modelled from the spec: whether an alert rule's condition holds for the
latest value of its metric — the comparator is taken from the condition name
(the frontend offers zscore, price and spread, each with both directions). -/
def condHolds (r : AlertRule) (value : ℚ) : Bool :=
  if r.condition = "zscore >" ∨ r.condition = "price >" ∨ r.condition = "spread >" then
    decide (r.threshold < value)
  else if r.condition = "zscore <" ∨ r.condition = "price <" ∨ r.condition = "spread <" then
    decide (value < r.threshold)
  else false

/-- Modelled from the spec: one alert evaluation step under the edge-triggered
policy with explicit re-arm (section 4.8).  A disabled rule is skipped.  When
the condition becomes true on a non-triggered rule, the rule fires (returns
true) and records the trigger; while the condition stays true the rule does
not fire again; when the condition becomes false the rule re-arms. -/
def evalRuleStep (r : AlertRule) (value : ℚ) (now : Nat) : AlertRule × Bool :=
  if r.enabled = false then (r, false)
  else if condHolds r value then
    if r.triggered then (r, false)
    else ({ r with triggered := true, last_triggered := some now }, true)
  else ({ r with triggered := false }, false)

/-- The sequence of fire flags produced by evaluating a rule on successive
refreshes of its metric value. -/
def alertFires : AlertRule → List ℚ → List Bool
  | _, [] => []
  | r, z :: rest =>
    (evalRuleStep r z 0).2 :: alertFires (evalRuleStep r z 0).1 rest

/-! ## Correlation matrix (modelled from the spec, section 4.4) -/

/-- Number of index-aligned points two bar series have in common. -/
def commonLen (xs ys : List ℚ) : Nat := min xs.length ys.length

/-- The trailing window of at most `w` of the overlapping points of two
aligned series. -/
def alignedTail (w : Nat) (xs ys : List ℚ) : List ℚ × List ℚ :=
  let n := commonLen xs ys
  ((xs.take n).drop (n - w), (ys.take n).drop (n - w))

/-- Population covariance of two aligned lists of rationals. -/
def cov (xs ys : List ℚ) : ℚ :=
  (List.zipWith (fun a b => (a - mean xs) * (b - mean ys)) xs ys).sum /
    (min xs.length ys.length)

/-- Modelled from the spec: Pearson rolling correlation of two aligned series
over the trailing `window` points — undefined (`none`) when fewer than 2
overlapping points or zero variance in either series; otherwise the
covariance over the product of the standard deviations, with the square root
abstracted as `rt` as in `computeStats`. -/
def rollingCorr (rt : ℚ → ℚ) (w : Nat) (xs ys : List ℚ) : Option ℚ :=
  let p := alignedTail w xs ys
  if p.1.length < 2 ∨ p.2.length < 2 ∨ variance p.1 = 0 ∨ variance p.2 = 0 then none
  else some (cov p.1 p.2 / (rt (variance p.1) * rt (variance p.2)))

/-- Modelled from the spec: the cross-instrument correlation matrix — the
diagonal is 1.0 by definition for an instrument with any data (an instrument
with no data at all has insufficient data even with itself), off-diagonal
cells are the pairwise rolling correlation, and insufficient data yields a
null cell, never a failure of the whole matrix. -/
def corrMatrix (rt : ℚ → ℚ) (w : Nat) (series : String → List ℚ) (a b : String) :
    Option ℚ :=
  if a = b then (if (series a).length = 0 then none else some 1)
  else rollingCorr rt w (series a) (series b)

/-! ## Theorems -/

/-- C8: the frontend never transmits or retains a hedge ratio equal to 0 —
`getSpread` builds exactly the same request parameters for a supplied hedge
ratio of 0 as for no hedge ratio at all, and the dashboard keeps its previous
hedge-ratio state when the fetched `result.hedge_ratio` is 0. -/
theorem hedge_ratio_zero_is_dropped :
    (∀ s1 s2 tf, getSpreadParams s1 s2 tf (some 0) = getSpreadParams s1 s2 tf none) ∧
    (∀ prev, fetchHedgeRatioUpdate prev 0 = prev) := by
  constructor
  · intro s1 s2 tf
    simp [getSpreadParams, jsTruthyNum]
  · intro prev
    simp [fetchHedgeRatioUpdate]

/-- C9: the correlation heatmap maps a missing row, a missing cell and a null
cell each to 0, so a null insufficient-data cell renders identically to a
true correlation of exactly 0. -/
theorem heatmap_null_cell_renders_zero :
    (∀ (data : String → Option (String → Option ℚ)) (s1 s2 : String),
      data s1 = none → heatmapCell data s1 s2 = 0) ∧
    (∀ (data : String → Option (String → Option ℚ)) (row : String → Option ℚ)
      (s1 s2 : String),
      data s1 = some row → row s2 = none → heatmapCell data s1 s2 = 0) ∧
    (∀ (data : String → Option (String → Option ℚ)) (row : String → Option ℚ)
      (s1 s2 : String),
      data s1 = some row → row s2 = some 0 → heatmapCell data s1 s2 = 0) := by
  refine ⟨?_, ?_, ?_⟩
  · intro data s1 s2 h
    simp [heatmapCell, h]
  · intro data row s1 s2 h1 h2
    simp [heatmapCell, h1, h2]
  · intro data row s1 s2 h1 h2
    simp [heatmapCell, h1, h2]

/-- C9 witness: concrete missing, null and zero cells all render as 0. -/
theorem heatmap_null_cell_renders_zero_witness :
    heatmapCell (fun _ => none) "A" "B" = 0 ∧
    heatmapCell (fun _ => some fun _ => none) "A" "B" = 0 ∧
    heatmapCell (fun _ => some fun _ => some 0) "A" "B" = 0 :=
  ⟨heatmap_null_cell_renders_zero.1 (fun _ => none) "A" "B" rfl,
   heatmap_null_cell_renders_zero.2.1 (fun _ => some fun _ => none) (fun _ => none)
     "A" "B" rfl rfl,
   heatmap_null_cell_renders_zero.2.2 (fun _ => some fun _ => some 0) (fun _ => some 0)
     "A" "B" rfl rfl⟩

/-- C10: the WebSocket hook schedules no reconnect after a clean close (code
1000); after an unclean close with n prior consecutive failed attempts it
increments the counter and waits exactly min(1000·2^n, 30000) ms before
attempt n+1; once the counter reaches 10 it never schedules a reconnect again
(the counter is left unchanged, so the stop is permanent); and a successful
connection resets the counter to 0. -/
theorem useWebSocket_reconnect_policy :
    (∀ attempts, (wsOnClose attempts 1000).2 = none) ∧
    (∀ n code, code ≠ 1000 → n < maxReconnectAttempts →
      wsOnClose n code = (n + 1, some (min (1000 * 2 ^ n) 30000))) ∧
    (∀ attempts code, maxReconnectAttempts ≤ attempts →
      wsOnClose attempts code = (attempts, none)) ∧
    (∀ attempts, wsOnOpen attempts = 0) := by
  refine ⟨?_, ?_, ?_, ?_⟩
  · intro a
    simp [wsOnClose]
  · intro n code hc hn
    simp [wsOnClose, hc, hn, getReconnectDelay, baseReconnectDelay, maxReconnectDelay]
  · intro a code ha
    have hno : ¬(code ≠ 1000 ∧ a < maxReconnectAttempts) := by
      rintro ⟨-, hlt⟩
      omega
    simp [wsOnClose, hno]
  · intro a
    rfl

/-- C10 witness: a clean close schedules nothing; the first unclean close
waits 1000 ms; the tenth-failure state schedules nothing; opening resets. -/
theorem useWebSocket_reconnect_policy_witness :
    (wsOnClose 0 1000).2 = none ∧
    wsOnClose 0 1006 = (1, some (min (1000 * 2 ^ 0) 30000)) ∧
    wsOnClose 10 1006 = (10, none) ∧
    wsOnOpen 3 = 0 :=
  ⟨useWebSocket_reconnect_policy.1 0,
   useWebSocket_reconnect_policy.2.1 0 1006 (by decide) (by decide),
   useWebSocket_reconnect_policy.2.2.1 10 1006 (by decide),
   useWebSocket_reconnect_policy.2.2.2 3⟩

/-- Helper: a tick is always a member of the list obtained by inserting it. -/
theorem mem_insertByTime (t : Tick) : ∀ s : List Tick, t ∈ insertByTime s t
  | [] => by simp [insertByTime]
  | x :: xs => by
    unfold insertByTime
    by_cases h : t.timestamp < x.timestamp
    · simp [h]
    · simp [h, mem_insertByTime t xs]

/-- Helper: a tick is a member of the store after appending it. -/
theorem mem_appendTick (s : List Tick) (t : Tick) : t ∈ appendTick s t := by
  unfold appendTick
  split
  · assumption
  · exact mem_insertByTime t s

/-- C2: appending the same tick twice (identical instrument, timestamp, price
and quantity) leaves the tick store — and therefore every bar aggregated from
it at any resolution — identical to appending it once. -/
theorem tickstore_duplicate_append_idempotent (s : List Tick) (t : Tick) :
    appendTick (appendTick s t) t = appendTick s t ∧
    ∀ res, aggBars res (appendTick (appendTick s t) t) = aggBars res (appendTick s t) := by
  have key : ∀ u : List Tick, t ∈ u → appendTick u t = u := by
    intro u hu
    simp [appendTick, hu]
  have h := key (appendTick s t) (mem_appendTick s t)
  exact ⟨h, fun res => by rw [h]⟩

/-- C5: whenever the first value in the trailing window is zero, RollingStats
still produces its full result record and reports `change_pct` as null
(`none`) instead of raising or propagating a division error. -/
theorem rollingstats_zero_first_reports_null (rt : ℚ → ℚ) (series : List ℚ) (w : Nat)
    (hw : 1 ≤ w) (hlen : w ≤ series.length) (hfirst : firstInWindow series w = 0) :
    ∃ st, computeStats rt series w = some st ∧ st.change_pct = none := by
  have hcond : ¬(w = 0 ∨ series.length < w) := by omega
  unfold computeStats
  rw [if_neg hcond]
  refine ⟨_, rfl, ?_⟩
  have h0 : (windowSlice series w).head?.getD 0 = 0 := by
    have h1 : (windowSlice series w).headD 0 = 0 := hfirst
    simpa using h1
  simp [h0]

/-- C5 witness: the window [0, 1, 2] with first value 0 produces a result
whose `change_pct` is null. -/
theorem rollingstats_zero_first_reports_null_witness :
    ∃ st, computeStats id [0, 1, 2] 3 = some st ∧ st.change_pct = none :=
  rollingstats_zero_first_reports_null id [0, 1, 2] 3 (by decide) (by decide) (by decide)

/-- C3: at every index with a full window whose rolling standard deviation is
zero (equivalently, whose rolling variance is zero), the z-score is exactly 0
and not a failure; and the spread series [5, 5, 5, 5, 5] with window 3 yields
z-scores [none, none, 0, 0, 0] — the first two positions insufficient-data —
for any square-root function. -/
theorem zscore_flat_spread (rt : ℚ → ℚ) (xs : List ℚ) (w t : Nat)
    (h1 : w ≤ t + 1) (h2 : t < xs.length) (h3 : rollingVar xs w t = 0) :
    zscoreAt rt xs w t = some 0 ∧
    zscoreSeries rt [5, 5, 5, 5, 5] 3 = [none, none, some 0, some 0, some 0] := by
  constructor
  · unfold zscoreAt
    rw [if_neg (by omega : ¬(t + 1 < w ∨ xs.length ≤ t)), if_pos h3]
  · have e2 : rollingVar [5, 5, 5, 5, 5] 3 2 = 0 := by
      norm_num [rollingVar, trailing, variance, mean]
    have e3 : rollingVar [5, 5, 5, 5, 5] 3 3 = 0 := by
      norm_num [rollingVar, trailing, variance, mean]
    have e4 : rollingVar [5, 5, 5, 5, 5] 3 4 = 0 := by
      norm_num [rollingVar, trailing, variance, mean]
    have hr : List.range 5 = [0, 1, 2, 3, 4] := rfl
    simp [zscoreSeries, hr, zscoreAt, e2, e3, e4]

/-- C3 witness: a flat two-point window gives z-score 0, and the concrete
series from the claim evaluates as stated. -/
theorem zscore_flat_spread_witness :
    zscoreAt id [1, 1, 1] 2 1 = some 0 ∧
    zscoreSeries id [5, 5, 5, 5, 5] 3 = [none, none, some 0, some 0, some 0] :=
  zscore_flat_spread id [1, 1, 1] 2 1 (by decide) (by decide)
    (by norm_num [rollingVar, trailing, variance, mean])

/-- C4: on the z-score series [0, 2.5, 2.5, 0.1, -2.5, 0] with entry_z = 2.0
and exit_z = 0.2, the backtest produces exactly two trades — a short entered
at index 1 and exited at index 3, and a long entered at index 4 and exited at
index 5 — for every spread series (the spread only affects the recorded pnl,
not the entry and exit decisions). -/
theorem backtest_example_two_trades (spread : List ℚ) :
    (runBacktest [0, 5/2, 5/2, 1/10, -5/2, 0] spread 2 (1/5)).trades.length = 2 ∧
    ((runBacktest [0, 5/2, 5/2, 1/10, -5/2, 0] spread 2 (1/5)).trades.map
        fun tr => (tr.side, tr.entry_index, tr.exit_index)) =
      [(Side.short, 1, 3), (Side.long, 4, 5)] := by
  have habs1 : |(5 / 2 : ℚ)| = 5 / 2 := abs_of_nonneg (by norm_num)
  have habs2 : |(1 / 10 : ℚ)| = 1 / 10 := abs_of_nonneg (by norm_num)
  have habs3 : |(0 : ℚ)| = 0 := abs_zero
  have key : runBacktest [0, 5/2, 5/2, 1/10, -5/2, 0] spread 2 (1/5) =
      { position := none,
        trades :=
          [{ side := Side.short, entry_index := 1, exit_index := 3, entry_z := 5/2,
             exit_z := 1/10, pnl := spread.getD 1 0 - spread.getD 3 0 },
           { side := Side.long, entry_index := 4, exit_index := 5, entry_z := -5/2,
             exit_z := 0, pnl := spread.getD 5 0 - spread.getD 4 0 }] } := by
    unfold runBacktest
    norm_num [btRun, btStep, habs1, habs2, habs3]
  rw [key]
  constructor <;> rfl

/-- Helper: for a rule with condition "zscore >", the condition holds exactly
when the value strictly exceeds the threshold. -/
theorem condHolds_gt (r : AlertRule) (z : ℚ) (hc : r.condition = "zscore >") :
    condHolds r z = decide (r.threshold < z) := by
  simp [condHolds, hc]

/-- Helper: one evaluation step of an enabled "zscore >" rule fires exactly
when the condition holds on a non-triggered rule, and afterwards the rule is
triggered exactly when the condition held; the static fields are unchanged. -/
theorem evalRuleStep_gt (r : AlertRule) (z : ℚ)
    (hc : r.condition = "zscore >") (hen : r.enabled = true) :
    (evalRuleStep r z 0).2 = (decide (r.threshold < z) && !r.triggered) ∧
    ((evalRuleStep r z 0).1).triggered = decide (r.threshold < z) ∧
    ((evalRuleStep r z 0).1).condition = "zscore >" ∧
    ((evalRuleStep r z 0).1).enabled = true ∧
    ((evalRuleStep r z 0).1).threshold = r.threshold := by
  unfold evalRuleStep
  rw [condHolds_gt r z hc]
  by_cases h : r.threshold < z
  · by_cases ht : r.triggered <;> simp [hen, h, ht, hc]
  · simp [hen, h, hc]

/-- Helper: characterization of the fire flags of an enabled "zscore >" rule:
position i fires exactly when the value at i exceeds the threshold and either
i is the first refresh and the rule started non-triggered, or the previous
value was at or below the threshold (re-armed). -/
theorem alertFires_char (zs : List ℚ) :
    ∀ r : AlertRule, r.condition = "zscore >" → r.enabled = true →
    ∀ i, i < zs.length →
      ((alertFires r zs).getD i false = true ↔
        (r.threshold < zs.getD i 0 ∧
          (if i = 0 then r.triggered = false else zs.getD (i - 1) 0 ≤ r.threshold))) := by
  induction zs with
  | nil =>
    intro r _ _ i hi
    simp at hi
  | cons z rest ih =>
    intro r hc hen i hi
    obtain ⟨hf, ht', hc', hen', hθ'⟩ := evalRuleStep_gt r z hc hen
    match i with
    | 0 =>
      simp only [alertFires, List.getD_cons_zero, hf, List.getD_cons_zero]
      constructor
      · intro h
        simp only [Bool.and_eq_true, decide_eq_true_eq, Bool.not_eq_true'] at h
        exact ⟨h.1, by simp [h.2]⟩
      · intro ⟨h1, h2⟩
        have h2' : r.triggered = false := by simpa using h2
        simp [h1, h2']
    | i' + 1 =>
      have hrest :
          ((alertFires (evalRuleStep r z 0).1 rest).getD i' false = true ↔
            ((evalRuleStep r z 0).1.threshold < rest.getD i' 0 ∧
              (if i' = 0 then (evalRuleStep r z 0).1.triggered = false
               else rest.getD (i' - 1) 0 ≤ (evalRuleStep r z 0).1.threshold))) :=
        ih (evalRuleStep r z 0).1 hc' hen' i' (by simpa using hi)
      rw [hθ', ht'] at hrest
      simp only [alertFires, List.getD_cons_succ]
      rw [hrest]
      match i' with
      | 0 =>
        simp only [if_pos rfl, decide_eq_false_iff_not, not_lt]
        simp
      | j + 1 =>
        simp only [if_neg (Nat.succ_ne_zero j), if_neg (Nat.succ_ne_zero (j + 1))]
        simp [List.getD_cons_succ]

/-- C6: under the edge-triggered policy with explicit re-arm, an enabled
"zscore >" alert rule with threshold 2.0 that starts non-triggered fires at a
refresh exactly when the newly computed zscore exceeds 2.0 and either it is
the first refresh or the previous zscore was at or below 2.0; consequently two
distinct fires always have an intermediate refresh whose zscore was at or
below the threshold (no re-trigger without re-arm). -/
theorem alert_edge_triggered_policy (r : AlertRule) (zs : List ℚ)
    (hc : r.condition = "zscore >") (hθ : r.threshold = 2)
    (hen : r.enabled = true) (h0 : r.triggered = false) :
    (∀ i, i < zs.length →
      ((alertFires r zs).getD i false = true ↔
        (2 < zs.getD i 0 ∧ (i = 0 ∨ zs.getD (i - 1) 0 ≤ 2)))) ∧
    (∀ i j, i < j → j < zs.length →
      (alertFires r zs).getD i false = true →
      (alertFires r zs).getD j false = true →
      ∃ k, i < k ∧ k < j ∧ zs.getD k 0 ≤ 2) := by
  have char := alertFires_char zs r hc hen
  rw [hθ] at char
  constructor
  · intro i hi
    rw [char i hi]
    by_cases hi0 : i = 0 <;> simp [hi0, h0]
  · intro i j hij hj hfi hfj
    have hi : i < zs.length := lt_trans hij hj
    have h1 := (char i hi).mp hfi
    have h2 := (char j hj).mp hfj
    have hj0 : ¬j = 0 := by omega
    rw [if_neg hj0] at h2
    refine ⟨j - 1, ?_, by omega, h2.2⟩
    by_contra hk
    have hji : j - 1 = i := by omega
    rw [hji] at h2
    exact absurd h1.1 (not_lt.mpr h2.2)

/-- C6 witness: for the rule (zscore > 2) on the zscore refreshes
[0, 3, 3, 1, 3], refresh 1 fires (first exceedance), and between the fires at
refreshes 1 and 4 there is an intermediate refresh at or below 2. -/
theorem alert_edge_triggered_policy_witness :
    ((alertFires ⟨"a1", "BTCUSDT", "zscore >", 2, true, false, none⟩ [0, 3, 3, 1, 3]).getD 1
        false = true ↔
      (2 < ([0, 3, 3, 1, 3] : List ℚ).getD 1 0 ∧
        (1 = 0 ∨ ([0, 3, 3, 1, 3] : List ℚ).getD 0 0 ≤ 2))) ∧
    (∃ k, 1 < k ∧ k < 4 ∧ ([0, 3, 3, 1, 3] : List ℚ).getD k 0 ≤ 2) :=
  ⟨(alert_edge_triggered_policy ⟨"a1", "BTCUSDT", "zscore >", 2, true, false, none⟩
      [0, 3, 3, 1, 3] rfl rfl rfl rfl).1 1 (by decide),
   (alert_edge_triggered_policy ⟨"a1", "BTCUSDT", "zscore >", 2, true, false, none⟩
      [0, 3, 3, 1, 3] rfl rfl rfl rfl).2 1 4 (by decide) (by decide)
     (by decide) (by decide)⟩

/-- Helper: population covariance is symmetric. -/
theorem cov_comm (xs ys : List ℚ) : cov xs ys = cov ys xs := by
  unfold cov
  rw [List.zipWith_comm]
  have h : (fun b a => (a - mean xs) * (b - mean ys)) =
      fun a b => (a - mean ys) * (b - mean xs) := by
    funext a b
    ring
  rw [h, Nat.min_comm xs.length ys.length]

/-- Helper: swapping the two series swaps the two components of the aligned
trailing window. -/
theorem alignedTail_swap (w : Nat) (xs ys : List ℚ) :
    alignedTail w ys xs = ((alignedTail w xs ys).2, (alignedTail w xs ys).1) := by
  simp [alignedTail, commonLen, Nat.min_comm ys.length xs.length]

/-- Helper: the length of the aligned trailing window is the overlap capped
at the window size. -/
theorem alignedTail_length (w : Nat) (xs ys : List ℚ) :
    (alignedTail w xs ys).1.length = min (commonLen xs ys) w := by
  have hn : commonLen xs ys ≤ xs.length := Nat.min_le_left _ _
  simp [alignedTail]
  omega

/-- Helper: rolling correlation is symmetric in its two series. -/
theorem rollingCorr_comm (rt : ℚ → ℚ) (w : Nat) (xs ys : List ℚ) :
    rollingCorr rt w xs ys = rollingCorr rt w ys xs := by
  unfold rollingCorr
  rw [alignedTail_swap]
  exact if_congr (by tauto) rfl (by rw [cov_comm, mul_comm])

/-- C7: for every instrument set in which every instrument has at least one
data point, the correlation matrix is symmetric and every diagonal entry is
exactly 1; a pair with insufficient overlapping data (fewer than 2 points)
yields a null cell, while the matrix itself is total — no engine-wide
failure. -/
theorem correlation_matrix_props (rt : ℚ → ℚ) (w : Nat) (series : String → List ℚ)
    (S : List String) (hdata : ∀ a ∈ S, 1 ≤ (series a).length) :
    (∀ a ∈ S, ∀ b ∈ S, corrMatrix rt w series a b = corrMatrix rt w series b a) ∧
    (∀ a ∈ S, corrMatrix rt w series a a = some 1) ∧
    (∀ a ∈ S, ∀ b ∈ S, a ≠ b → min (commonLen (series a) (series b)) w < 2 →
      corrMatrix rt w series a b = none) := by
  refine ⟨?_, ?_, ?_⟩
  · intro a _ b _
    by_cases hab : a = b
    · rw [hab]
    · unfold corrMatrix
      rw [if_neg hab, if_neg (Ne.symm hab)]
      exact rollingCorr_comm rt w (series a) (series b)
  · intro a ha
    have h := hdata a ha
    unfold corrMatrix
    rw [if_pos rfl, if_neg (by omega)]
  · intro a _ b _ hab hmin
    unfold corrMatrix
    rw [if_neg hab]
    unfold rollingCorr
    rw [if_pos]
    left
    rw [alignedTail_length]
    exact hmin

/-- C7 witness: for the two-instrument set with two data points each, the
diagonal entry is 1 and the off-diagonal entries are symmetric. -/
theorem correlation_matrix_props_witness :
    corrMatrix id 5 (fun _ => [1, 2]) "X" "X" = some 1 ∧
    corrMatrix id 5 (fun _ => [1, 2]) "X" "Y" = corrMatrix id 5 (fun _ => [1, 2]) "Y" "X" :=
  ⟨(correlation_matrix_props id 5 (fun _ => [1, 2]) ["X", "Y"] (by decide)).2.1 "X"
      (by decide),
   (correlation_matrix_props id 5 (fun _ => [1, 2]) ["X", "Y"] (by decide)).1 "X"
      (by decide) "Y" (by decide)⟩

/-- Helper: bucket starts are multiples of the resolution. -/
theorem dvd_bucketStart (res t : Nat) : res ∣ bucketStart res t := by
  unfold bucketStart
  exact dvd_mul_left res (t / res)

/-- Helper: a freshly opened bar is well formed when the tick's quantity is
non-negative. -/
theorem barWellFormed_mkBar (res : Nat) (tk : Tick) (hq : 0 ≤ tk.quantity) :
    barWellFormed (mkBar res tk) := by
  refine ⟨?_, ?_, ?_⟩ <;> simp [mkBar, hq]

/-- Helper: updating a well-formed open bar with a non-negative-quantity tick
keeps it well formed. -/
theorem barWellFormed_updateBar (b : Bar) (tk : Tick)
    (hb : barWellFormed b) (hq : 0 ≤ tk.quantity) :
    barWellFormed (updateBar b tk) := by
  obtain ⟨h1, h2, h3⟩ := hb
  refine ⟨?_, ?_, ?_⟩
  · show max b.open_ tk.price ≤ max b.high tk.price
    exact max_le_max (le_trans (le_max_left _ _) h1) le_rfl
  · show min b.low tk.price ≤ min b.open_ tk.price
    exact min_le_min (le_trans h2 (min_le_left _ _)) le_rfl
  · show 0 ≤ b.volume + tk.quantity
    exact add_nonneg h3 hq

/-- Helper: a gap marker bar is always well formed. -/
theorem barWellFormed_gapBar (b : Bar) (s : Nat) : barWellFormed (gapBar b s) := by
  refine ⟨?_, ?_, ?_⟩ <;> simp [gapBar]

/-- Helper: every bar in a gap run is well formed. -/
theorem gapRun_wellFormed (res : Nat) :
    ∀ (m : Nat) (b : Bar), ∀ g ∈ gapRun res b m, barWellFormed g
  | 0, b => by simp [gapRun]
  | m + 1, b => by
    intro g hg
    simp only [gapRun] at hg
    rcases List.mem_cons.mp hg with rfl | h
    · exact barWellFormed_gapBar b (b.bucket_start + res)
    · exact gapRun_wellFormed res m _ g h

/-- Helper: a bar followed by its gap run forms a contiguous chain. -/
theorem gapRun_chain (res : Nat) :
    ∀ (m : Nat) (b : Bar),
      List.Chain' (fun a c => a.bucket_start + res = c.bucket_start) (b :: gapRun res b m)
  | 0, b => by simp [gapRun]
  | m + 1, b => by
    simp only [gapRun]
    exact List.chain'_cons.mpr ⟨rfl, gapRun_chain res m (gapBar b (b.bucket_start + res))⟩

/-- Helper: the last bar of a bar followed by its gap run of length m sits m
resolutions after the bar. -/
theorem gapRun_last (res : Nat) :
    ∀ (m : Nat) (b : Bar),
      ∃ x, (b :: gapRun res b m).getLast? = some x ∧
        x.bucket_start = b.bucket_start + m * res
  | 0, b => ⟨b, by simp [gapRun]⟩
  | m + 1, b => by
    obtain ⟨x, hx, hxb⟩ := gapRun_last res m (gapBar b (b.bucket_start + res))
    refine ⟨x, ?_, ?_⟩
    · simp only [gapRun]
      rw [List.getLast?_cons_cons]
      exact hx
    · rw [hxb]
      show b.bucket_start + res + m * res = b.bucket_start + (m + 1) * res
      ring

/-- Helper: arithmetic of the gap count — starting from bucket a and jumping
to a later bucket s (both multiples of the resolution), the gap run of
s/res - a/res - 1 markers ends one resolution before s. -/
theorem bucket_step_arith (res a s : Nat) (ha : res ∣ a) (hs : res ∣ s) (h : a < s) :
    a + (s / res - a / res - 1) * res + res = s := by
  obtain ⟨i, rfl⟩ := ha
  obtain ⟨j, rfl⟩ := hs
  have hres : res ≠ 0 := by
    rintro rfl
    simp at h
  have hij : i < j := lt_of_mul_lt_mul_left h (Nat.zero_le res)
  have h1 : res * i / res = i := Nat.mul_div_cancel_left i (Nat.pos_of_ne_zero hres)
  have h2 : res * j / res = j := Nat.mul_div_cancel_left j (Nat.pos_of_ne_zero hres)
  rw [h1, h2]
  have h3 : (j - i - 1) * res + res = (j - i) * res := by
    rw [← Nat.succ_mul]
    congr 1
    omega
  have h6 : i * res ≤ j * res := Nat.mul_le_mul_right res (le_of_lt hij)
  rw [Nat.add_assoc, h3, Nat.sub_mul, Nat.mul_comm res i, Nat.mul_comm res j]
  exact Nat.add_sub_cancel' h6

/-- Helper: one aggregator transition preserves the aggregator invariant. -/
theorem aggInv_step (res : Nat) (st : AggSt) (tk : Tick)
    (hst : aggInv res st) (hq : 0 ≤ tk.quantity) : aggInv res (stepAgg res st tk) := by
  obtain ⟨em, cur⟩ := st
  obtain ⟨hwf, hch, hdvd, hnil⟩ := hst
  cases cur with
  | none =>
    have he : em = [] := hnil rfl
    subst he
    refine ⟨?_, ?_, ?_, ?_⟩
    · intro b hb
      simp [stepAgg] at hb
      subst hb
      exact barWellFormed_mkBar res tk hq
    · simp [stepAgg, contiguous]
    · intro b hb
      simp [stepAgg] at hb
      subst hb
      exact dvd_bucketStart res tk.timestamp
    · intro h
      simp [stepAgg] at h
  | some b =>
    have hwb : barWellFormed b := hwf b (by simp)
    have hdb : res ∣ b.bucket_start := hdvd b (by simp)
    have hch' :
        List.Chain' (fun a c => a.bucket_start + res = c.bucket_start) (em ++ [b]) := by
      simpa [contiguous] using hch
    obtain ⟨c1, c2, link⟩ := List.chain'_append.mp hch'
    by_cases h1 : bucketStart res tk.timestamp = b.bucket_start
    · have hstep : stepAgg res ⟨em, some b⟩ tk = ⟨em, some (updateBar b tk)⟩ := by
        simp only [stepAgg]
        rw [if_pos h1]
      rw [hstep]
      refine ⟨?_, ?_, ?_, ?_⟩
      · intro c hc
        simp only [Option.toList_some] at hc
        rcases List.mem_append.mp hc with hmem | hmem
        · exact hwf c (List.mem_append.mpr (Or.inl hmem))
        · have hc' : c = updateBar b tk := by simpa using hmem
          subst hc'
          exact barWellFormed_updateBar b tk hwb hq
      · show contiguous res (em ++ (some (updateBar b tk)).toList)
        simp only [Option.toList_some]
        unfold contiguous
        refine List.chain'_append.mpr ⟨c1, by simp, ?_⟩
        intro x hx y hy
        have hy' : updateBar b tk = y := by simpa using hy
        subst hy'
        have hlink := link x hx b (by simp)
        show x.bucket_start + res = (updateBar b tk).bucket_start
        simpa [updateBar] using hlink
      · intro c hc
        have hc' : c = updateBar b tk := by simpa using hc
        subst hc'
        show res ∣ (updateBar b tk).bucket_start
        simpa [updateBar] using hdb
      · intro h
        simp at h
    · by_cases h2 : b.bucket_start < bucketStart res tk.timestamp
      · have hstep : stepAgg res ⟨em, some b⟩ tk =
            ⟨em ++ b :: gapRun res b
                (bucketStart res tk.timestamp / res - b.bucket_start / res - 1),
             some (mkBar res tk)⟩ := by
          simp only [stepAgg]
          rw [if_neg h1, if_pos h2]
        rw [hstep]
        have hds : res ∣ bucketStart res tk.timestamp := dvd_bucketStart res tk.timestamp
        have harith : b.bucket_start +
            (bucketStart res tk.timestamp / res - b.bucket_start / res - 1) * res + res =
            bucketStart res tk.timestamp :=
          bucket_step_arith res b.bucket_start (bucketStart res tk.timestamp) hdb hds h2
        obtain ⟨x, hx, hxb⟩ :=
          gapRun_last res (bucketStart res tk.timestamp / res - b.bucket_start / res - 1) b
        refine ⟨?_, ?_, ?_, ?_⟩
        · intro c hc
          simp only [Option.toList_some] at hc
          rcases List.mem_append.mp hc with hc' | hc'
          · rcases List.mem_append.mp hc' with hem | hbg
            · exact hwf c (List.mem_append.mpr (Or.inl hem))
            · rcases List.mem_cons.mp hbg with rfl | hgap
              · exact hwb
              · exact gapRun_wellFormed res _ b c hgap
          · have hc'' : c = mkBar res tk := by simpa using hc'
            subst hc''
            exact barWellFormed_mkBar res tk hq
        · show contiguous res ((em ++ b :: gapRun res b _) ++ (some (mkBar res tk)).toList)
          simp only [Option.toList_some]
          unfold contiguous
          rw [List.append_assoc]
          refine List.chain'_append.mpr ⟨c1, ?_, ?_⟩
          · refine List.chain'_append.mpr ⟨gapRun_chain res _ b, by simp, ?_⟩
            intro u hu v hv
            rw [hx] at hu
            have hu' : x = u := by simpa using hu
            have hv' : mkBar res tk = v := by simpa using hv
            subst hu'
            subst hv'
            have hmk : (mkBar res tk).bucket_start = bucketStart res tk.timestamp := rfl
            rw [hxb, hmk]
            exact harith
          · intro u hu v hv
            have hv' : b = v := by simpa using hv
            subst hv'
            exact link u hu b (by simp)
        · intro c hc
          have hc' : c = mkBar res tk := by simpa using hc
          subst hc'
          show res ∣ (mkBar res tk).bucket_start
          exact dvd_bucketStart res tk.timestamp
        · intro h
          simp at h
      · have hstep : stepAgg res ⟨em, some b⟩ tk = ⟨em, some b⟩ := by
          simp only [stepAgg]
          rw [if_neg h1, if_neg h2]
        rw [hstep]
        exact ⟨hwf, hch, hdvd, hnil⟩

/-- Helper: the aggregator invariant holds along any fold of ticks with
non-negative quantities. -/
theorem aggInv_run (res : Nat) :
    ∀ (ticks : List Tick) (st : AggSt),
      aggInv res st → (∀ tk ∈ ticks, 0 ≤ tk.quantity) →
      aggInv res (ticks.foldl (stepAgg res) st)
  | [], _, h, _ => h
  | tk :: rest, st, h, hq => by
    rw [List.foldl_cons]
    exact aggInv_run res rest (stepAgg res st tk)
      (aggInv_step res st tk h (hq tk (by simp)))
      (fun u hu => hq u (by simp [hu]))

/-- Helper: the empty aggregator state satisfies the invariant. -/
theorem aggInv_empty (res : Nat) : aggInv res { emitted := [], current := none } := by
  refine ⟨?_, ?_, ?_, ?_⟩ <;> simp [contiguous]

/-- C1: for every sequence of ingested ticks (with the non-negative
quantities the data model requires) and every resolution, each bar the
aggregator produces satisfies high at least max(open, close), low at most
min(open, close) and non-negative volume, and consecutive bars are contiguous
and non-overlapping: each bucket starts exactly one resolution after the
previous one. -/
theorem aggregator_bars_invariants (res : Nat) (ticks : List Tick)
    (hq : ∀ tk ∈ ticks, 0 ≤ tk.quantity) :
    (∀ b ∈ aggBars res ticks, barWellFormed b) ∧ contiguous res (aggBars res ticks) := by
  have h := aggInv_run res ticks { emitted := [], current := none } (aggInv_empty res) hq
  exact ⟨h.1, h.2.1⟩

/-- C1 witness: a concrete tick stream with an idle period produces only
well-formed, contiguous bars. -/
theorem aggregator_bars_invariants_witness :
    (∀ b ∈ aggBars 60 [⟨"BTCUSDT", 0, 10, 1⟩, ⟨"BTCUSDT", 30, 12, 2⟩,
        ⟨"BTCUSDT", 200, 11, 1⟩], barWellFormed b) ∧
    contiguous 60 (aggBars 60 [⟨"BTCUSDT", 0, 10, 1⟩, ⟨"BTCUSDT", 30, 12, 2⟩,
        ⟨"BTCUSDT", 200, 11, 1⟩]) :=
  aggregator_bars_invariants 60 _ (by decide)
